import Mathlib

/-!
Shallow embedding of the NPAG core of the NPcore repository.

The definitions below are translated from the Rust sources:
  * src/base/prob.rs        (likelihood matrix builder, normal_likelihood)
  * src/algorithms/npag.rs  (NPAG driver loop, pruning, QR condensation,
                             gamma line search, convergence test,
                             adaptative_grid, evaluate_spp, norm_zero)
  * src/entrypoints.rs      (start: exclude-list handling)

Rust f64 values are modelled as rationals where only field arithmetic and
comparisons occur, and as reals where sqrt and exp occur.  Fallible
operations (Vec::remove, ndarray stack().unwrap()) are modelled with
Option, where none stands for a panic.
-/

namespace NPcore

/-! Constants from src/algorithms/npag.rs lines 17-20.  The Rust literals
1e-4, 1e-2 are written as exact rationals. -/

def THETA_E : ℚ := 1 / 10000

def THETA_G : ℚ := 1 / 10000

def THETA_F : ℚ := 1 / 100

def THETA_D : ℚ := 1 / 10000

/-! ### Floating-point value classes (for the likelihood anomaly claim)

The cells of the likelihood matrix are f64 values which can be NaN or
infinite.  For the anomaly-handling claim only the classification of the
computed value matters, so an f64 is modelled as either NaN, an infinity,
or a finite rational value.  The transcendental computation producing the
cell value (normal_likelihood over f64) is passed in opaquely as a
function from the cell position to such a value. -/

inductive FpVal where
  | nan : FpVal
  | inf : FpVal
  | ninf : FpVal
  | val : ℚ → FpVal
deriving DecidableEq

def FpVal.is_nan : FpVal → Bool
  | .nan => true
  | _ => false

def FpVal.is_infinite : FpVal → Bool
  | .inf => true
  | .ninf => true
  | _ => false

/-- Condition of the anomaly check in prob (src/base/prob.rs line 31):
ll.is_nan() || ll.is_infinite(). -/
def isAnomalous (x : FpVal) : Bool := x.is_nan || x.is_infinite

/-- Cell value stored by prob (src/base/prob.rs line 48): after the anomaly
check, which only logs, element.fill(ll) stores the computed value
unchanged. -/
def probCell (ll : ℕ → ℕ → FpVal) (i j : ℕ) : FpVal := ll i j

/-- The matrix built by prob: row i < n_subjects, column j < n_support;
every cell holds the computed likelihood value unchanged. -/
def probCells (ll : ℕ → ℕ → FpVal) (n m : ℕ) : List (List FpVal) :=
  (List.range n).map (fun i => (List.range m).map (fun j => probCell ll i j))

/-- The (subject, support point) pairs logged by prob: exactly the cells
whose computed value is NaN or infinite (src/base/prob.rs lines 31-39). -/
def probLogs (ll : ℕ → ℕ → FpVal) (n m : ℕ) : List (ℕ × ℕ) :=
  (List.range n).flatMap (fun i =>
    ((List.range m).filter (fun j => isAnomalous (ll i j))).map (fun j => (i, j)))

/-! ### Exclude-list handling in the driver entry point

src/entrypoints.rs lines 103-109:
  for val in exclude { scenarios.remove(val.as_ptr() as usize); }
val is a &String; val.as_ptr() as usize is the heap address of the string
buffer, not the numeric value of the string.  The address passed for each
string is modelled as a natural number input.  Vec::remove(i) panics when
i >= len, modelled by none. -/

def vecRemove (l : List α) (ix : ℕ) : Option (List α) :=
  if ix < l.length then some (l.eraseIdx ix) else none

/-- The exclude loop of start: remove scenarios sequentially at the given
indices (in the code these indices are the pointer addresses of the
strings of config.exclude). -/
def excludeScenarios (scenarios : List α) (ptrIdx : List ℕ) : Option (List α) :=
  ptrIdx.foldl (fun acc p => acc.bind (fun l => vecRemove l p)) (some scenarios)

/-- Modelled from the spec: the claimed behaviour of the exclude option,
removing exactly the subjects at the listed indices and keeping the other
scenarios in their original order. -/
def claimExclude (scenarios : List α) (idxs : List ℕ) : List α :=
  (scenarios.enum.filter (fun p => !(idxs.contains p.1))).map (fun p => p.2)

/-! ### Weight-threshold pruning (src/algorithms/npag.rs)

First prune, lines 100-109: keep index j iff
  lam > 1e-8 && lam > lambda.max()/1000.
Second prune, lines 218-231: keep index j iff
  lam > lambda.max()/1000.
Afterwards theta rows / psi columns are stacked from the kept indices;
ndarray stack of an empty list returns Err and the unwrap panics. -/

/-- ndarray lambda.max().unwrap() over a nonempty array; for the empty
array (where the Rust code would panic) the value 0 is returned, and all
theorems about whole-list maxima assume nonemptiness. -/
def listMax : List ℚ → ℚ
  | [] => 0
  | x :: xs => xs.foldl max x

/-- Kept indices of the first weight prune (npag.rs lines 103-108). -/
def prune1Keep (lambda : List ℚ) : List ℕ :=
  (List.range lambda.length).filter
    (fun j => decide (1 / 100000000 < lambda.getD j 0 ∧ listMax lambda / 1000 < lambda.getD j 0))

/-- Kept indices of the second weight prune (npag.rs lines 221-227). -/
def prune2Keep (lambda : List ℚ) : List ℕ :=
  (List.range lambda.length).filter
    (fun j => decide (listMax lambda / 1000 < lambda.getD j 0))

/-- ndarray stack(Axis, &rows).unwrap(): panics (none) exactly when the
list of stacked views is empty. -/
def stackOpt (rows : List α) : Option (List α) :=
  match rows with
  | [] => none
  | rs => some rs

/-- Theta after the first prune: stack of the theta rows at kept indices. -/
def prune1Theta (theta : List (List ℚ)) (lambda : List ℚ) : Option (List (List ℚ)) :=
  stackOpt ((prune1Keep lambda).map (fun j => theta.getD j []))

/-- Psi columns after the first prune. -/
def prune1Psi (psiCols : List (List ℚ)) (lambda : List ℚ) : Option (List (List ℚ)) :=
  stackOpt ((prune1Keep lambda).map (fun j => psiCols.getD j []))

/-! ### gamma line search (npag.rs lines 163-216)

objf_up and objf_down are produced by the external IPM solver
(routines/evaluation/ipm.rs, not part of the driver file) and enter as
inputs.  The record tracks which candidate ended up adopted. -/

structure GammaResult where
  gamma : ℚ
  objf : ℚ
  delta : ℚ
  upAdopted : Bool
  downAdopted : Bool
deriving DecidableEq

/-- The gamma line search exactly as in the source: two sequential if
blocks (not else-if), each comparing against the current objf, which the
first block may already have updated; then delta is halved and reset. -/
def gammaSearch (gamma gamma_delta objf objf_up objf_down : ℚ) : GammaResult :=
  let gamma_up := gamma * (1 + gamma_delta)
  let gamma_down := gamma / (1 + gamma_delta)
  let s1 : ℚ × ℚ × ℚ × Bool :=
    if objf_up > objf then (gamma_up, objf_up, gamma_delta * 4, true)
    else (gamma, objf, gamma_delta, false)
  let s2 : ℚ × ℚ × ℚ × Bool :=
    if objf_down > s1.2.1 then (gamma_down, objf_down, s1.2.2.1 * 4, true)
    else (s1.1, s1.2.1, s1.2.2.1, false)
  let d3 := s2.2.2.1 * (1 / 2)
  let d4 := if d3 ≤ 1 / 100 then 1 / 10 else d3
  ⟨s2.1, s2.2.1, d4, s1.2.2.2, s2.2.2.2⟩

/-- Final delta update shared by all cases: halve, then reset to 0.1 when
the halved value is at most 0.01. -/
def finishDelta (x : ℚ) : ℚ :=
  if x * (1 / 2) ≤ 1 / 100 then 1 / 10 else x * (1 / 2)

/-- Modelled from the claim as stated (else-if semantics): the downward
candidate is examined only when the upward candidate was not adopted, and
both candidates are compared against the objf current at entry. -/
def claimGammaSearch (gamma gamma_delta objf objf_up objf_down : ℚ) : GammaResult :=
  let gamma_up := gamma * (1 + gamma_delta)
  let gamma_down := gamma / (1 + gamma_delta)
  if objf_up > objf then ⟨gamma_up, objf_up, finishDelta (gamma_delta * 4), true, false⟩
  else if objf_down > objf then ⟨gamma_down, objf_down, finishDelta (gamma_delta * 4), false, true⟩
  else ⟨gamma, objf, finishDelta gamma_delta, false, false⟩

/-- The amended description of the code behaviour by cases: when both
candidates improve, the downward one wins (it is compared against the
already-updated objf) and delta is multiplied by 4 twice. -/
def amendedGammaSearch (gamma gamma_delta objf objf_up objf_down : ℚ) : GammaResult :=
  let gamma_up := gamma * (1 + gamma_delta)
  let gamma_down := gamma / (1 + gamma_delta)
  if objf_up > objf then
    if objf_down > objf_up then
      ⟨gamma_down, objf_down, finishDelta (gamma_delta * 4 * 4), true, true⟩
    else ⟨gamma_up, objf_up, finishDelta (gamma_delta * 4), true, false⟩
  else if objf_down > objf then
    ⟨gamma_down, objf_down, finishDelta (gamma_delta * 4), false, true⟩
  else ⟨gamma, objf, finishDelta gamma_delta, false, false⟩

/-! ### Adaptive grid expansion (npag.rs lines 317-352)

adaptative_grid iterates over a snapshot of theta (old_theta) while
evaluate_spp appends accepted candidates to the growing theta. -/

/-- Scaled L1 distance of evaluate_spp (npag.rs lines 343-347): sum over
the candidate coordinates of |candidate_i - spp_i| / (hi_i - lo_i). -/
def scaled_l1 (candidate spp : List ℚ) (limits : List (ℚ × ℚ)) : ℚ :=
  ((List.range candidate.length).map (fun i =>
    |candidate.getD i 0 - spp.getD i 0| /
      ((limits.getD i (0, 0)).2 - (limits.getD i (0, 0)).1))).sum

/-- The row loop of evaluate_spp: an early return (theta unchanged) as
soon as one existing point is within THETA_D; push_row after the loop. -/
def evaluate_spp_loop (theta : List (List ℚ)) (candidate : List ℚ)
    (limits : List (ℚ × ℚ)) : List (List ℚ) → List (List ℚ)
  | [] => theta ++ [candidate]
  | spp :: rest =>
    if scaled_l1 candidate spp limits ≤ THETA_D then theta
    else evaluate_spp_loop theta candidate limits rest

/-- evaluate_spp (npag.rs lines 341-352): scan the current theta rows. -/
def evaluate_spp (theta : List (List ℚ)) (candidate : List ℚ)
    (limits : List (ℚ × ℚ)) : List (List ℚ) :=
  evaluate_spp_loop theta candidate limits theta

/-- One axis j of one snapshot row spp (npag.rs lines 319-337): the plus
candidate is tried when val + l < hi_j, then the minus candidate when
val - l > lo_j, with l = eps * (hi_j - lo_j). -/
def grid_axis_step (eps : ℚ) (ranges : List (ℚ × ℚ)) (spp : List ℚ)
    (theta : List (List ℚ)) (j : ℕ) : List (List ℚ) :=
  let lo := (ranges.getD j (0, 0)).1
  let hi := (ranges.getD j (0, 0)).2
  let l := eps * (hi - lo)
  let val := spp.getD j 0
  let t1 := if val + l < hi then evaluate_spp theta (spp.set j (val + l)) ranges else theta
  if val - l > lo then evaluate_spp t1 (spp.set j (val - l)) ranges else t1

/-- All axes of one snapshot row. -/
def grid_row_step (eps : ℚ) (ranges : List (ℚ × ℚ)) (theta : List (List ℚ))
    (spp : List ℚ) : List (List ℚ) :=
  (List.range spp.length).foldl (grid_axis_step eps ranges spp) theta

/-- adaptative_grid (npag.rs lines 317-339). -/
def adaptative_grid (theta : List (List ℚ)) (eps : ℚ)
    (ranges : List (ℚ × ℚ)) : List (List ℚ) :=
  theta.foldl (grid_row_step eps ranges) theta

/-- Acceptance predicate in the spec wording: scaled L1 distance to every
point of the growing theta exceeds THETA_D. -/
def spec_accepts (theta : List (List ℚ)) (cand : List ℚ)
    (limits : List (ℚ × ℚ)) : Bool :=
  theta.all (fun q => decide (THETA_D < scaled_l1 cand q limits))

/-- Append a candidate when accepted (spec wording). -/
def spec_append (theta : List (List ℚ)) (cand : List ℚ)
    (limits : List (ℚ × ℚ)) : List (List ℚ) :=
  if spec_accepts theta cand limits then theta ++ [cand] else theta

/-- Candidates of one point on one axis in the amended spec wording: the
plus candidate when its displaced coordinate is strictly below the upper
bound, then the minus candidate when strictly above the lower bound;
coordinates inherited from the point are not re-checked. -/
def spec_axis_candidates (eps : ℚ) (ranges : List (ℚ × ℚ)) (spp : List ℚ) (j : ℕ) :
    List (List ℚ) :=
  let lo := (ranges.getD j (0, 0)).1
  let hi := (ranges.getD j (0, 0)).2
  let l := eps * (hi - lo)
  let val := spp.getD j 0
  (if val + l < hi then [spp.set j (val + l)] else []) ++
  (if val - l > lo then [spp.set j (val - l)] else [])

/-- Candidate list of one point in the amended spec wording, axes in order. -/
def spec_candidates (eps : ℚ) (ranges : List (ℚ × ℚ)) (spp : List ℚ) : List (List ℚ) :=
  (List.range spp.length).flatMap (spec_axis_candidates eps ranges spp)

/-- Grid expansion in the amended spec wording: append each candidate of
each snapshot point exactly when it passes the distance guard against the
growing theta. -/
def spec_expand (theta : List (List ℚ)) (eps : ℚ)
    (ranges : List (ℚ × ℚ)) : List (List ℚ) :=
  theta.foldl (fun cur spp =>
    (spec_candidates eps ranges spp).foldl (fun c cand => spec_append c cand ranges) cur) theta

/-- Strict containment of a candidate in every per-parameter bound, as the
claim as stated requires of every appended candidate. -/
def strictly_within (cand : List ℚ) (ranges : List (ℚ × ℚ)) : Bool :=
  (List.range cand.length).all (fun i =>
    decide ((ranges.getD i (0, 0)).1 < cand.getD i 0 ∧
            cand.getD i 0 < (ranges.getD i (0, 0)).2))

/-! ### Convergence test and end-of-cycle control flow (npag.rs lines 232-300)

The Rust loop body ends with: break on objf decrease; cycle output and
progress send; the convergence test; the max-cycle check; the stop-file
check; grid expansion; cycle increment and last_objf update.  The value
f1 = sum of ln(psi . w) is transcendental and enters as the input f1val,
computed by the caller only in the branch where the code computes it. -/

/-- The convergence test (npag.rs lines 264-283) as a function from
(last_objf, objf, eps, f0, f1val) to (eps, f0, converged). -/
def convTest (last_objf objf eps f0 f1val : ℚ) : ℚ × ℚ × Bool :=
  if |last_objf - objf| ≤ THETA_G ∧ eps > THETA_E then
    let eps2 := eps / 2
    if eps2 ≤ THETA_E then
      if |f1val - f0| ≤ THETA_F then (eps2, f0, true)
      else (1 / 5, f1val, false)
    else (eps2, f0, false)
  else (eps, f0, false)

/-- Modelled from the claim wording: when |last_objf - objf| <= 1e-4 and
eps > 1e-4, eps is halved; if the halved eps is <= 1e-4 then the run
converges exactly when |f1 - f0| <= 1e-2, and otherwise f0 is set to f1
and eps is reset to 0.2. -/
def claimConvTest (last_objf objf eps f0 f1val : ℚ) : ℚ × ℚ × Bool :=
  if |last_objf - objf| ≤ 1 / 10000 ∧ eps > 1 / 10000 then
    if eps / 2 ≤ 1 / 10000 then
      if |f1val - f0| ≤ 1 / 100 then (eps / 2, f0, true)
      else (2 / 10, f1val, false)
    else (eps / 2, f0, false)
  else (eps, f0, false)

structure CycleState where
  last_objf : ℚ
  objf : ℚ
  eps : ℚ
  f0 : ℚ
  cycle : ℕ
  theta : List (List ℚ)
deriving DecidableEq

inductive CycleExit where
  | decreaseBreak : CycleExit
  | convergedBreak : CycleExit
  | maxCycleBreak : CycleExit
  | stopfileBreak : CycleExit
  | nextCycle : CycleExit
deriving DecidableEq

structure CycleOutcome where
  exit : CycleExit
  converged : Bool
  eps : ℚ
  f0 : ℚ
  cycle : ℕ
  last_objf : ℚ
  theta : List (List ℚ)
deriving DecidableEq

/-- End of the NPAG loop body (npag.rs lines 232-300): the objf-decrease
check breaks immediately; otherwise the convergence test runs, then the
max-cycle check, then the stop-file check, and finally the grid is
expanded with the current eps, the cycle counter is incremented and
last_objf is set to objf. -/
def cycleTail (st : CycleState) (f1val : ℚ) (maxCycles : ℕ) (stopfile : Bool)
    (ranges : List (ℚ × ℚ)) : CycleOutcome :=
  if st.last_objf > st.objf then
    ⟨.decreaseBreak, false, st.eps, st.f0, st.cycle, st.last_objf, st.theta⟩
  else
    let r := convTest st.last_objf st.objf st.eps st.f0 f1val
    if r.2.2 then ⟨.convergedBreak, true, r.1, r.2.1, st.cycle, st.last_objf, st.theta⟩
    else if st.cycle ≥ maxCycles then
      ⟨.maxCycleBreak, false, r.1, r.2.1, st.cycle, st.last_objf, st.theta⟩
    else if stopfile then
      ⟨.stopfileBreak, false, r.1, r.2.1, st.cycle, st.last_objf, st.theta⟩
    else
      ⟨.nextCycle, false, r.1, r.2.1, st.cycle + 1, st.objf,
        adaptative_grid st.theta r.1 ranges⟩

/-! ### normal_likelihood (src/base/prob.rs lines 52-57)

f64 arithmetic is modelled over the reals.  The Rust constant
FRAC_1_SQRT_2PI is FRAC_2_SQRT_PI * FRAC_1_SQRT_2 / 2, with
FRAC_2_SQRT_PI = 2 / sqrt pi and FRAC_1_SQRT_2 = 1 / sqrt 2. -/

def zipWith3 (f : α → β → γ → δ) : List α → List β → List γ → List δ
  | a :: as, b :: bs, c :: cs => f a b c :: zipWith3 f as bs cs
  | _, _, _ => []

noncomputable def FRAC_1_SQRT_2PI : ℝ :=
  2 / Real.sqrt Real.pi * (1 / Real.sqrt 2) / 2

/-- normal_likelihood from the source: diff = (yobs - ypred)^2 elementwise,
two_sigma_sq = (2 * sigma)^2 elementwise (note: the square of 2*sigma, not
2 times sigma squared), aux = FRAC_1_SQRT_2PI * exp(-diff/two_sigma_sq) /
sigma, and the product of aux. -/
noncomputable def normal_likelihood (ypred yobs sigma : List ℝ) : ℝ :=
  let diff := List.zipWith (fun yo yp => (yo - yp) ^ 2) yobs ypred
  let two_sigma_sq := sigma.map (fun s => (2 * s) ^ 2)
  let aux_vec := zipWith3 (fun d t s => FRAC_1_SQRT_2PI * Real.exp (-d / t) / s)
    diff two_sigma_sq sigma
  aux_vec.prod

/-- Modelled from the claim/spec: the product over observations of
(1 / (sqrt(2 pi) * sigma)) * exp(-(y - yhat)^2 / (2 * sigma^2)). -/
noncomputable def claim_likelihood (ypred yobs sigma : List ℝ) : ℝ :=
  (zipWith3 (fun yo yp s =>
      1 / (Real.sqrt (2 * Real.pi) * s) * Real.exp (-((yo - yp) ^ 2) / (2 * s ^ 2)))
    yobs ypred sigma).prod

/-! ### Rank-revealing QR condensation (npag.rs lines 111-143)

The QR factorisation itself is performed by the external linfa_linalg
library; its output R (upper triangular) and the column permutation perm
computed before it enter as inputs.  The embedded part is the keep loop:
for i in 0..lim, when r[(i,i)] / norm_zero(r.column(i)) >= 1e-8 the code
pushes theta.row(perm.indices[keep]) and psi.column(perm.indices[keep])
and increments keep -- the permutation is indexed by the count of columns
kept so far, not by the loop index i. -/

/-- Column i of R (entries r k i for k < nrows). -/
def rcol (r : ℕ → ℕ → ℝ) (nrows i : ℕ) : List ℝ :=
  (List.range nrows).map (fun k => r k i)

/-- norm_zero (npag.rs lines 354-357): the L2 distance to the zero
vector, the square root of the sum of squares. -/
noncomputable def norm_zero (a : List ℝ) : ℝ :=
  Real.sqrt ((a.map (fun x => x ^ 2)).sum)

/-- The ratio test of the keep loop: r[(i,i)] / norm of column i is at
least 1e-8 (the Rust literal 1e-8 written as an exact real). -/
noncomputable def ratioPass (r : ℕ → ℕ → ℝ) (nrows i : ℕ) : Prop :=
  r i i / norm_zero (rcol r nrows i) ≥ 1 / 100000000

/-- The keep loop over the remaining indices, carrying the keep counter.
On a passing index the column perm[keep] is retained. -/
def qrKeepAux (pass : ℕ → Prop) [DecidablePred pass] (perm : List ℕ) :
    List ℕ → ℕ → List ℕ
  | [], _ => []
  | i :: is, keep =>
    if pass i then perm.getD keep 0 :: qrKeepAux pass perm is (keep + 1)
    else qrKeepAux pass perm is keep

/-- The retained column indices produced by the source keep loop, as a
function of the R factor, the number of rows, lim = min(nrows, ncols) and
the permutation. -/
noncomputable def qrKept (r : ℕ → ℕ → ℝ) (nrows lim : ℕ) (perm : List ℕ) : List ℕ :=
  @qrKeepAux (ratioPass r nrows) (Classical.decPred _) perm (List.range lim) 0

/-- Modelled from the claim wording: for every i, keep column perm[i]
exactly when the ratio test at i passes. -/
def claimKeepIdx (pass : ℕ → Prop) [DecidablePred pass] (perm : List ℕ)
    (lim : ℕ) : List ℕ :=
  ((List.range lim).filter (fun i => decide (pass i))).map (fun i => perm.getD i 0)

/-- The claim version applied to the ratio test of the source. -/
noncomputable def qrClaimKept (r : ℕ → ℕ → ℝ) (nrows lim : ℕ) (perm : List ℕ) : List ℕ :=
  @claimKeepIdx (ratioPass r nrows) (Classical.decPred _) perm lim

/-- Number of loop indices passing the ratio test. -/
def passCount (pass : ℕ → Prop) [DecidablePred pass] (lim : ℕ) : ℕ :=
  ((List.range lim).filter (fun i => decide (pass i))).length

/-- Number of passing indices for the ratio test of the source. -/
noncomputable def ratioPassCount (r : ℕ → ℕ → ℝ) (nrows lim : ℕ) : ℕ :=
  @passCount (ratioPass r nrows) (Classical.decPred _) lim

/-- A concrete upper-triangular R factor: diag(-1, 1).  It is a valid QR
factor of the 2 x 2 identity matrix (with Q = diag(-1, 1), which is
orthogonal); Householder-based QR routines produce exactly such negative
leading diagonal entries.  The identity is a row-normalized psi with
non-increasing column sums, so this R is a reachable input of the keep
loop.  Its ratio test fails at i = 0 (ratio -1) and passes at i = 1. -/
def rEx : ℕ → ℕ → ℝ := fun i j =>
  if i = 0 ∧ j = 0 then -1 else if i = 1 ∧ j = 1 then 1 else 0

/-! ## Theorems -/

/-! ### Claim C4 -/

/-- Claim C4 (code_bug): the exclude loop of start does not remove the
subjects at the listed indices.  It calls Vec::remove with
val.as_ptr() as usize, the heap address of the excluded string, which in
any real process is far larger than the number of scenarios, so the call
panics.  With three parsed scenarios and exclude list ["1"], the code
removes at the string address (modelled by 94000000000, a typical 64-bit
heap address) and panics (none), while the claimed behaviour for exclude
index 1 removes the second subject and keeps the others in order. -/
theorem C4_exclude_code_bug :
    excludeScenarios [10, 20, 30] [94000000000] = none ∧
    claimExclude [10, 20, 30] [1] = [10, 30] := by
  decide

/-! ### Claim C5 -/

/-- Claim C5 counterexample: in a state where the objective function
decreased (last_objf = 1 > 0 = objf), with the cycle cap not reached and
no stop file, the loop body does not continue to the convergence test,
max-cycle check and expansion as the claim states: it exits with
decreaseBreak and the grid is left unexpanded. -/
theorem C5_counterexample :
    (cycleTail ⟨1, 0, 1/5, -1, 1, [[1/2]]⟩ 0 100 false [(0, 1)]).exit =
      CycleExit.decreaseBreak ∧
    CycleExit.decreaseBreak ≠ CycleExit.nextCycle ∧
    (cycleTail ⟨1, 0, 1/5, -1, 1, [[1/2]]⟩ 0 100 false [(0, 1)]).theta = [[1/2]] :=
  ⟨by norm_num [cycleTail, convTest], by decide, by norm_num [cycleTail, convTest]⟩

/-- Claim C5 (amended): whenever objf < last_objf, the decrease is logged
as an error and the NPAG loop breaks immediately: the convergence test,
the max-cycle check, the stop-file check and the grid expansion of that
cycle are all skipped, and eps, f0, cycle, last_objf and theta are left
unchanged. -/
theorem C5_decrease_breaks :
    ∀ (st : CycleState) (f1val : ℚ) (maxCycles : ℕ) (stopfile : Bool)
      (ranges : List (ℚ × ℚ)), st.last_objf > st.objf →
      cycleTail st f1val maxCycles stopfile ranges =
        ⟨.decreaseBreak, false, st.eps, st.f0, st.cycle, st.last_objf, st.theta⟩ := by
  intro st f1val maxCycles stopfile ranges h
  unfold cycleTail
  rw [if_pos h]

/-- Witness for C5_decrease_breaks at a concrete decreasing state. -/
theorem C5_witness :
    (1 : ℚ) > 0 ∧
    cycleTail ⟨1, 0, 1/5, -1, 1, [[1/2]]⟩ 0 100 false [(0, 1)] =
      ⟨.decreaseBreak, false, 1/5, -1, 1, 1, [[1/2]]⟩ :=
  ⟨by norm_num, C5_decrease_breaks ⟨1, 0, 1/5, -1, 1, [[1/2]]⟩ 0 100 false [(0, 1)] (by norm_num)⟩

/-! ### Claim C6 -/

/-- Claim C6 counterexample: with gamma = 1, delta = 0.1, objf = 0,
objf_up = 1, objf_down = 2, both candidates improve.  The claim (else-if
semantics) adopts only the upward candidate, gamma = 1.1; the code runs
both if blocks, the downward candidate overwrites the upward one and
gamma ends at 10/11 with delta multiplied by 4 twice. -/
theorem C6_counterexample :
    gammaSearch 1 (1/10) 0 1 2 ≠ claimGammaSearch 1 (1/10) 0 1 2 ∧
    gammaSearch 1 (1/10) 0 1 2 = ⟨10/11, 2, 4/5, true, true⟩ ∧
    claimGammaSearch 1 (1/10) 0 1 2 = ⟨11/10, 1, 1/5, true, false⟩ := by
  have h1 : gammaSearch 1 (1/10) 0 1 2 = ⟨10/11, 2, 4/5, true, true⟩ := by
    norm_num [gammaSearch]
  have h2 : claimGammaSearch 1 (1/10) 0 1 2 = ⟨11/10, 1, 1/5, true, false⟩ := by
    norm_num [claimGammaSearch, finishDelta]
  refine ⟨?_, h1, h2⟩
  rw [h1, h2]
  simp

/-- Claim C6 (amended): the two line-search branches are sequential if
statements, each compared against the current objf which the first branch
may already have updated.  Hence: if only objf_up > objf, gamma_up is
adopted with delta scaled by 4; if only objf_down > objf, gamma_down is
adopted with delta scaled by 4; if both improve and objf_down > objf_up,
gamma_down wins and delta is scaled by 4 twice; afterwards delta is
halved and reset to 0.1 whenever the halved value is at most 0.01. -/
theorem C6_gamma_search_amended :
    ∀ gamma gamma_delta objf objf_up objf_down : ℚ,
      gammaSearch gamma gamma_delta objf objf_up objf_down =
        amendedGammaSearch gamma gamma_delta objf objf_up objf_down := by
  intro g d o ou od
  simp only [gammaSearch, amendedGammaSearch, finishDelta]
  by_cases h1 : ou > o
  · by_cases h2 : od > ou
    · simp [h1, h2]
    · simp [h1, h2]
  · by_cases h3 : od > o
    · simp [h1, h3]
    · simp [h1, h3]

/-! ### Claim C9 -/

/-- Claim C9 counterexample: with lambda = [1e-6, 5e-9], max/1000 = 1e-9,
the claim (prune exactly the columns with lambda at most max/1000) keeps
both columns, but the first prune of the code additionally requires
lambda > 1e-8 and drops column 1. -/
theorem C9_counterexample :
    prune1Keep [1/1000000, 1/200000000] = [0] ∧
    prune2Keep [1/1000000, 1/200000000] = [0, 1] ∧
    prune1Keep [1/1000000, 1/200000000] ≠ prune2Keep [1/1000000, 1/200000000] := by
  have h1 : prune1Keep [1/1000000, 1/200000000] = [0] := by
    norm_num [prune1Keep, listMax, List.filter, List.range_succ]
  have h2 : prune2Keep [1/1000000, 1/200000000] = [0, 1] := by
    norm_num [prune2Keep, listMax, List.filter, List.range_succ]
  exact ⟨h1, h2, by rw [h1, h2]; decide⟩

/-- Claim C9 (amended): the prune after the first IPM solve keeps exactly
the columns j with lambda_j > 1e-8 and lambda_j > max(lambda)/1000, while
the prune after the gamma line search keeps exactly the columns with
lambda_j > max(lambda)/1000, both in index order. -/
theorem C9_prune_amended :
    ∀ (l : List ℚ) (j : ℕ),
      (j ∈ prune1Keep l ↔
        j < l.length ∧ 1/100000000 < l.getD j 0 ∧ listMax l / 1000 < l.getD j 0) ∧
      (j ∈ prune2Keep l ↔ j < l.length ∧ listMax l / 1000 < l.getD j 0) := by
  intro l j
  constructor
  · simp [prune1Keep, List.mem_filter, List.mem_range, and_assoc]
  · simp [prune2Keep, List.mem_filter, List.mem_range, and_assoc]

/-! ### Helper lemmas about listMax (ndarray max over a nonempty array) -/

lemma le_foldl_max (xs : List ℚ) (acc : ℚ) : acc ≤ xs.foldl max acc := by
  induction xs generalizing acc with
  | nil => exact le_refl _
  | cons x xs ih =>
    simp only [List.foldl_cons]
    exact le_trans (le_max_left acc x) (ih (max acc x))

lemma mem_le_foldl_max (xs : List ℚ) (acc : ℚ) : ∀ x ∈ xs, x ≤ xs.foldl max acc := by
  induction xs generalizing acc with
  | nil => intro x hx; cases hx
  | cons y ys ih =>
    intro x hx
    simp only [List.foldl_cons]
    rcases List.mem_cons.mp hx with h | h
    · subst h; exact le_trans (le_max_right acc x) (le_foldl_max ys (max acc x))
    · exact ih (max acc y) x h

lemma foldl_max_mem (xs : List ℚ) (acc : ℚ) :
    xs.foldl max acc = acc ∨ xs.foldl max acc ∈ xs := by
  induction xs generalizing acc with
  | nil => left; rfl
  | cons y ys ih =>
    simp only [List.foldl_cons]
    rcases ih (max acc y) with h | h
    · rcases max_choice acc y with hm | hm
      · left; rw [h, hm]
      · right; rw [h, hm]; exact List.mem_cons_self y ys
    · right; exact List.mem_cons_of_mem y h

lemma le_listMax (l : List ℚ) (x : ℚ) (hx : x ∈ l) : x ≤ listMax l := by
  cases l with
  | nil => cases hx
  | cons y ys =>
    simp only [listMax]
    rcases List.mem_cons.mp hx with h | h
    · subst h; exact le_foldl_max ys x
    · exact mem_le_foldl_max ys y x h

lemma listMax_mem (l : List ℚ) (h : l ≠ []) : listMax l ∈ l := by
  cases l with
  | nil => exact absurd rfl h
  | cons y ys =>
    simp only [listMax]
    rcases foldl_max_mem ys y with h1 | h1
    · rw [h1]; exact List.mem_cons_self y ys
    · exact List.mem_cons_of_mem y h1

lemma getD_mem_of_lt (l : List ℚ) (j : ℕ) (h : j < l.length) : l.getD j 0 ∈ l := by
  rw [List.getD_eq_getElem l 0 h]
  exact List.getElem_mem h

/-! ### Claim C7 -/

/-- Claim C7 (confirmed): the convergence test of the cycle equals the
claimed behaviour: when |last_objf - objf| <= 1e-4 and eps > 1e-4, eps is
halved; if the halved eps is <= 1e-4 then f1 is consulted and the run
converges exactly when |f1 - f0| <= 1e-2, otherwise f0 is set to f1 and
eps is reset to 0.2; and converged is set exactly in that case. -/
theorem C7_convergence_test :
    ∀ last_objf objf eps f0 f1val : ℚ,
      convTest last_objf objf eps f0 f1val = claimConvTest last_objf objf eps f0 f1val ∧
      ((convTest last_objf objf eps f0 f1val).2.2 = true ↔
        (|last_objf - objf| ≤ THETA_G ∧ eps > THETA_E ∧ eps / 2 ≤ THETA_E ∧
          |f1val - f0| ≤ THETA_F)) := by
  intro l o e f0 f1
  constructor
  · simp only [convTest, claimConvTest, THETA_G, THETA_E, THETA_F]
    norm_num
  · simp only [convTest]
    split_ifs with h1 h2 h3
    · constructor
      · intro _; exact ⟨h1.1, h1.2, h2, h3⟩
      · intro _; rfl
    · constructor
      · intro h; simp at h
      · rintro ⟨-, -, -, hf⟩; exact absurd hf h3
    · constructor
      · intro h; simp at h
      · rintro ⟨-, -, he, -⟩; exact absurd he h2
    · constructor
      · intro h; simp at h
      · rintro ⟨ha, hb, -, -⟩; exact absurd ⟨ha, hb⟩ h1

/-! ### Claim C2 -/

/-- Claim C2 counterexample: a computed cell value that is infinite is
logged with its (subject, support point) pair, but the cell stored in the
matrix is the infinite value itself, not 0; hence the stored matrix is
not elementwise finite. -/
theorem C2_counterexample :
    probCells (fun i j => if i == 0 && j == 0 then FpVal.inf else FpVal.val 1) 1 1 =
      [[FpVal.inf]] ∧
    probLogs (fun i j => if i == 0 && j == 0 then FpVal.inf else FpVal.val 1) 1 1 =
      [(0, 0)] ∧
    FpVal.inf ≠ FpVal.val 0 ∧
    FpVal.is_infinite FpVal.inf = true := by
  decide

/-- Claim C2 (amended): for every cell inside the matrix bounds, the
anomaly is logged exactly when the computed value is NaN or infinite, and
the stored cell is the computed value itself (anomalies included), not 0. -/
theorem C2_prob_anomaly_amended :
    ∀ (ll : ℕ → ℕ → FpVal) (n m i j : ℕ), i < n → j < m →
      ((probCells ll n m).getD i []).getD j (FpVal.val 0) = ll i j ∧
      ((i, j) ∈ probLogs ll n m ↔ isAnomalous (ll i j) = true) := by
  intro ll n m i j hi hj
  constructor
  · simp [probCells, probCell, List.getD_eq_getElem?_getD, List.getElem?_map,
      List.getElem?_range, hi, hj]
  · simp [probLogs, List.mem_flatMap, List.mem_map, List.mem_filter, List.mem_range,
      hi, hj]

/-- Witness for C2_prob_anomaly_amended at a concrete 1 x 1 matrix. -/
theorem C2_witness :
    (0 < 1 ∧ 0 < 1) ∧
    (((probCells (fun _ _ => FpVal.val 1) 1 1).getD 0 []).getD 0 (FpVal.val 0) =
        FpVal.val 1 ∧
      ((0, 0) ∈ probLogs (fun _ _ => FpVal.val 1) 1 1 ↔
        isAnomalous (FpVal.val 1) = true)) :=
  ⟨⟨by decide, by decide⟩,
    C2_prob_anomaly_amended (fun _ _ => FpVal.val 1) 1 1 0 0 (by decide) (by decide)⟩

/-! ### Claim C10 -/

/-- Claim C10 (confirmed): the first weight-threshold prune retains at
least one column exactly when max(lambda) > 1e-8, in that case a column
carrying the maximal weight is retained, and when every weight is at most
1e-8 the retained set is empty and the subsequent ndarray stack of zero
rows/columns panics (modelled by none). -/
theorem C10_prune_safety :
    ∀ l : List ℚ, l ≠ [] →
      ((prune1Keep l ≠ [] ↔ 1/100000000 < listMax l) ∧
       (1/100000000 < listMax l → ∃ j ∈ prune1Keep l, l.getD j 0 = listMax l) ∧
       ((∀ x ∈ l, x ≤ 1/100000000) →
         prune1Keep l = [] ∧ ∀ theta psiCols : List (List ℚ),
           prune1Theta theta l = none ∧ prune1Psi psiCols l = none)) := by
  intro l hne
  have hmem : ∀ j, j ∈ prune1Keep l ↔
      j < l.length ∧ 1/100000000 < l.getD j 0 ∧ listMax l / 1000 < l.getD j 0 := by
    intro j
    simp [prune1Keep, List.mem_filter, List.mem_range, and_assoc]
  have hmaxmem : ∀ h : 1/100000000 < listMax l,
      ∃ j ∈ prune1Keep l, l.getD j 0 = listMax l := by
    intro hmax
    have hm : listMax l ∈ l := listMax_mem l hne
    obtain ⟨i, hil, hgi⟩ := List.mem_iff_getElem.mp hm
    have hget : l.getD i 0 = listMax l := by
      rw [List.getD_eq_getElem l 0 hil]; exact hgi
    have hpos : 0 < listMax l := lt_trans (by norm_num) hmax
    refine ⟨i, (hmem i).mpr ⟨hil, ?_, ?_⟩, hget⟩
    · rw [hget]; exact hmax
    · rw [hget]; linarith
  refine ⟨⟨?_, ?_⟩, hmaxmem, ?_⟩
  · intro hkeep
    obtain ⟨j, hj⟩ := List.exists_mem_of_ne_nil _ hkeep
    obtain ⟨hjl, hj8, -⟩ := (hmem j).mp hj
    have := le_listMax l _ (getD_mem_of_lt l j hjl)
    linarith
  · intro hmax
    obtain ⟨j, hj, -⟩ := hmaxmem hmax
    exact List.ne_nil_of_mem hj
  · intro hall
    have hempty : prune1Keep l = [] := by
      rcases h : prune1Keep l with - | ⟨j, rest⟩
      · rfl
      · exfalso
        have hj : j ∈ prune1Keep l := by rw [h]; exact List.mem_cons_self j rest
        obtain ⟨hjl, hj8, -⟩ := (hmem j).mp hj
        have := hall _ (getD_mem_of_lt l j hjl)
        linarith
    refine ⟨hempty, fun theta psiCols => ?_⟩
    constructor
    · simp [prune1Theta, hempty, stackOpt]
    · simp [prune1Psi, hempty, stackOpt]

/-- Witness for C10_prune_safety at lambda = [1e-9, 0], where every
weight is at most 1e-8 and the prune panics. -/
theorem C10_witness :
    ([1/1000000000, 0] : List ℚ) ≠ [] ∧
    ((prune1Keep [1/1000000000, 0] ≠ [] ↔
        1/100000000 < listMax [1/1000000000, 0]) ∧
     (1/100000000 < listMax [1/1000000000, 0] →
        ∃ j ∈ prune1Keep [1/1000000000, 0],
          ([1/1000000000, 0] : List ℚ).getD j 0 = listMax [1/1000000000, 0]) ∧
     ((∀ x ∈ ([1/1000000000, 0] : List ℚ), x ≤ 1/100000000) →
        prune1Keep [1/1000000000, 0] = [] ∧ ∀ theta psiCols : List (List ℚ),
          prune1Theta theta [1/1000000000, 0] = none ∧
          prune1Psi psiCols [1/1000000000, 0] = none)) :=
  ⟨by simp, C10_prune_safety [1/1000000000, 0] (by simp)⟩

/-! ### Helper lemmas for the grid expansion -/

lemma evaluate_spp_loop_eq (theta : List (List ℚ)) (cand : List ℚ)
    (limits : List (ℚ × ℚ)) :
    ∀ scan : List (List ℚ),
      evaluate_spp_loop theta cand limits scan =
        if scan.all (fun q => decide (THETA_D < scaled_l1 cand q limits)) then
          theta ++ [cand]
        else theta := by
  intro scan
  induction scan with
  | nil => simp [evaluate_spp_loop]
  | cons spp rest ih =>
    simp only [evaluate_spp_loop, List.all_cons]
    by_cases h : scaled_l1 cand spp limits ≤ THETA_D
    · rw [if_pos h]
      have hd : decide (THETA_D < scaled_l1 cand spp limits) = false := by
        simp [not_lt.mpr h]
      simp [hd]
    · rw [if_neg h, ih]
      have hd : decide (THETA_D < scaled_l1 cand spp limits) = true := by
        simp [lt_of_not_le h]
      simp [hd]

lemma evaluate_spp_eq_spec_append (theta : List (List ℚ)) (cand : List ℚ)
    (limits : List (ℚ × ℚ)) :
    evaluate_spp theta cand limits = spec_append theta cand limits := by
  rw [evaluate_spp, evaluate_spp_loop_eq, spec_append, spec_accepts]

lemma grid_axis_step_eq (eps : ℚ) (ranges : List (ℚ × ℚ)) (spp : List ℚ)
    (theta : List (List ℚ)) (j : ℕ) :
    grid_axis_step eps ranges spp theta j =
      (spec_axis_candidates eps ranges spp j).foldl
        (fun c cand => spec_append c cand ranges) theta := by
  simp only [grid_axis_step, spec_axis_candidates]
  split_ifs <;>
    simp [List.foldl_cons, List.foldl_nil, evaluate_spp_eq_spec_append]

lemma grid_axes_foldl_eq (eps : ℚ) (ranges : List (ℚ × ℚ)) (spp : List ℚ) :
    ∀ (js : List ℕ) (theta : List (List ℚ)),
      js.foldl (grid_axis_step eps ranges spp) theta =
        (js.flatMap (spec_axis_candidates eps ranges spp)).foldl
          (fun c cand => spec_append c cand ranges) theta := by
  intro js
  induction js with
  | nil => intro theta; rfl
  | cons j js ih =>
    intro theta
    simp only [List.foldl_cons, List.flatMap_cons, List.foldl_append]
    rw [ih, grid_axis_step_eq]

lemma adaptative_grid_eq_spec (theta : List (List ℚ)) (eps : ℚ)
    (ranges : List (ℚ × ℚ)) :
    adaptative_grid theta eps ranges = spec_expand theta eps ranges := by
  rw [adaptative_grid, spec_expand]
  congr 1
  funext cur spp
  rw [grid_row_step, grid_axes_foldl_eq, spec_candidates]

/-! ### Claim C8 -/

/-- Claim C8 counterexample: around the single point (0, 0.5) of the 2D
unit box, the code appends the candidate (0, 0.7), whose first coordinate
sits exactly on the lower bound 0 and is therefore not strictly within
every per-parameter bound; the claim states that every appended candidate
lies strictly within every bound. -/
theorem C8_counterexample :
    [0, 7/10] ∈ adaptative_grid [[0, 1/2]] (1/5) [(0, 1), (0, 1)] ∧
    strictly_within [0, 7/10] [(0, 1), (0, 1)] = false ∧
    ([0, 7/10] : List ℚ) ∉ [[0, 1/2]] := by
  have hval : adaptative_grid [[0, 1/2]] (1/5) [(0, 1), (0, 1)] =
      [[0, 1/2], [1/5, 1/2], [0, 7/10], [0, 3/10]] := by
    norm_num [adaptative_grid, grid_row_step, grid_axis_step, evaluate_spp,
      evaluate_spp_loop, scaled_l1, THETA_D, List.range_succ, abs_of_nonneg,
      abs_of_nonpos]
  refine ⟨?_, ?_, ?_⟩
  · rw [hval]; norm_num
  · norm_num [strictly_within, List.range_succ]
  · norm_num

/-- Claim C8 (amended): grid expansion considers, for every existing
point p and axis k, the candidates p plus or minus eps*(high_k - low_k)
on axis k; the plus candidate is generated only when its displaced
coordinate is strictly below high_k and the minus candidate only when
strictly above low_k (coordinates inherited from p are not re-checked),
and a generated candidate is appended exactly when its scaled L1 distance
to every point already in the growing theta exceeds 1e-4.  At eps = 0.2
around the single point (0.5, 0.5) of the 2D unit box exactly the four
candidates (0.7, 0.5), (0.3, 0.5), (0.5, 0.7), (0.5, 0.3) are added. -/
theorem C8_expansion_amended :
    (∀ (theta : List (List ℚ)) (eps : ℚ) (ranges : List (ℚ × ℚ)),
      adaptative_grid theta eps ranges = spec_expand theta eps ranges) ∧
    adaptative_grid [[1/2, 1/2]] (1/5) [(0, 1), (0, 1)] =
      [[1/2, 1/2], [7/10, 1/2], [3/10, 1/2], [1/2, 7/10], [1/2, 3/10]] := by
  constructor
  · exact adaptative_grid_eq_spec
  · norm_num [adaptative_grid, grid_row_step, grid_axis_step, evaluate_spp,
      evaluate_spp_loop, scaled_l1, THETA_D, List.range_succ, abs_of_nonneg,
      abs_of_nonpos]

/-! ### Helper lemma for the QR keep loop -/

lemma qrKeepAux_eq (pass : ℕ → Prop) [DecidablePred pass] (perm : List ℕ) :
    ∀ (is : List ℕ) (keep : ℕ),
      qrKeepAux pass perm is keep =
        (List.range (is.countP (fun i => decide (pass i)))).map
          (fun k => perm.getD (keep + k) 0) := by
  intro is
  induction is with
  | nil => intro keep; simp [qrKeepAux]
  | cons i is ih =>
    intro keep
    by_cases h : pass i
    · simp only [qrKeepAux, if_pos h, ih]
      have hc : (i :: is).countP (fun x => decide (pass x)) =
          is.countP (fun x => decide (pass x)) + 1 := by
        simp [List.countP_cons, h]
      rw [hc, List.range_succ_eq_map, List.map_cons, List.map_map]
      have hfun : ((fun k => perm.getD (keep + k) 0) ∘ Nat.succ) =
          (fun k => perm.getD (keep + 1 + k) 0) := by
        funext k
        simp only [Function.comp, Nat.succ_eq_add_one]
        have hk : keep + (k + 1) = keep + 1 + k := by omega
        rw [hk]
      rw [hfun]
      rfl
    · simp only [qrKeepAux, if_neg h, ih]
      have hc : (i :: is).countP (fun x => decide (pass x)) =
          is.countP (fun x => decide (pass x)) := by
        simp [List.countP_cons, h]
      rw [hc]

/-! ### Claim C3 -/

/-- Claim C3 counterexample: with the upper-triangular factor
R = diag(-1, 1) (a valid QR factor of the 2 x 2 identity, a reachable
row-normalized, column-sorted psi) and permutation [0, 1], the ratio test
fails at i = 0 (ratio -1 < 1e-8) and passes at i = 1.  The claim says the
retained column is perm(1); the code indexes the permutation with the
count of already-kept columns and retains perm(0), a column whose own
ratio test failed. -/
theorem C3_counterexample :
    qrKept rEx 2 2 [0, 1] = [0] ∧ qrClaimKept rEx 2 2 [0, 1] = [1] ∧
    ([0] : List ℕ) ≠ [1] := by
  have hcol0 : rcol rEx 2 0 = [-1, 0] := by
    norm_num [rcol, rEx, List.range_succ]
  have hcol1 : rcol rEx 2 1 = [0, 1] := by
    norm_num [rcol, rEx, List.range_succ]
  have hn0 : norm_zero [(-1 : ℝ), 0] = 1 := by
    norm_num [norm_zero, Real.sqrt_one]
  have hn1 : norm_zero [(0 : ℝ), 1] = 1 := by
    norm_num [norm_zero, Real.sqrt_one]
  have h0 : ¬ ratioPass rEx 2 0 := by
    unfold ratioPass
    rw [hcol0, hn0]
    norm_num [rEx]
  have h1 : ratioPass rEx 2 1 := by
    unfold ratioPass
    rw [hcol1, hn1]
    norm_num [rEx]
  refine ⟨?_, ?_, by decide⟩
  · unfold qrKept
    have hr : List.range 2 = [0, 1] := by decide
    rw [hr]
    simp only [qrKeepAux]
    rw [if_neg h0, if_pos h1]
    simp
  · unfold qrClaimKept claimKeepIdx
    have hr : List.range 2 = [0, 1] := by decide
    rw [hr]
    have d0 := @decide_eq_false (ratioPass rEx 2 0) (Classical.decPred (ratioPass rEx 2) 0) h0
    have d1 := @decide_eq_true (ratioPass rEx 2 1) (Classical.decPred (ratioPass rEx 2) 1) h1
    simp [List.filter, d0, d1]

/-- Claim C3 (amended): the keep loop retains the first c entries of the
permutation, perm(0), ..., perm(c-1), where c is the number of loop
indices i in 0..lim-1 whose ratio test r(i,i) / norm(R column i) >= 1e-8
passes; this agrees with retaining perm(i) for each passing i exactly
when the passing indices form a prefix of the loop range.  Columns beyond
the first c entries of the permutation are dropped. -/
theorem C3_qr_keep_amended :
    ∀ (r : ℕ → ℕ → ℝ) (nrows lim : ℕ) (perm : List ℕ),
      qrKept r nrows lim perm =
        (List.range (ratioPassCount r nrows lim)).map (fun k => perm.getD k 0) := by
  intro r nrows lim perm
  unfold qrKept ratioPassCount passCount
  rw [@qrKeepAux_eq (ratioPass r nrows) (Classical.decPred _) perm (List.range lim) 0]
  rw [List.countP_eq_length_filter]
  simp

/-! ### Claim C1 -/

/-- Claim C1 (code_bug): normal_likelihood divides the squared residual
by (2*sigma)^2 = 4*sigma^2, not by 2*sigma^2 as the normal density (and
the claim) requires; the normalisation constant 1/(sqrt(2 pi) sigma) in
the same expression is the one of the normal density, so the code is
internally inconsistent.  At ypred = [0], yobs = [1], sigma = [1] the
code yields exp(-1/4)/sqrt(2 pi) while the claimed density value is
exp(-1/2)/sqrt(2 pi), and the two differ. -/
theorem C1_normal_likelihood_code_bug :
    normal_likelihood [0] [1] [1] = FRAC_1_SQRT_2PI * Real.exp (-(1/4)) ∧
    claim_likelihood [0] [1] [1] = FRAC_1_SQRT_2PI * Real.exp (-(1/2)) ∧
    normal_likelihood [0] [1] [1] ≠ claim_likelihood [0] [1] [1] := by
  have h2 : Real.sqrt 2 ≠ 0 := by positivity
  have hpi : Real.sqrt Real.pi ≠ 0 := by
    have := Real.pi_pos
    positivity
  have hfrac : FRAC_1_SQRT_2PI = 1 / Real.sqrt (2 * Real.pi) := by
    unfold FRAC_1_SQRT_2PI
    rw [Real.sqrt_mul (by norm_num : (0:ℝ) ≤ 2)]
    field_simp
    ring
  have hcode : normal_likelihood [0] [1] [1] = FRAC_1_SQRT_2PI * Real.exp (-(1/4)) := by
    simp [normal_likelihood, zipWith3]
    norm_num
  have hclaim : claim_likelihood [0] [1] [1] = FRAC_1_SQRT_2PI * Real.exp (-(1/2)) := by
    simp [claim_likelihood, zipWith3, hfrac]
    norm_num
  refine ⟨hcode, hclaim, ?_⟩
  rw [hcode, hclaim]
  have hC : FRAC_1_SQRT_2PI ≠ 0 := by
    rw [hfrac]
    have hs : 0 < Real.sqrt (2 * Real.pi) := Real.sqrt_pos.mpr (by positivity)
    positivity
  intro heq
  have hexp := mul_left_cancel₀ hC heq
  have harg := Real.exp_eq_exp.mp hexp
  norm_num at harg

end NPcore
